import Mathlib

/-!
Shallow embedding of the caching layer of the `linux_icons` icon-theme
resolution library (`src/cache.rs`), together with spec-modelled versions of
its excluded collaborators (`Icons`, `Theme`, directory descriptors), and
proofs of the behavioural claims about the cache.
-/

set_option maxHeartbeats 1000000

namespace LinuxIcons

/-- Modelled from the spec: a directory descriptor (from the excluded
collaborator `crate::theme`) is consumed by the cache layer only through two
operations: an exact-match predicate on a requested (size, scale) pair, and a
non-negative integer distance where 0 means exact match. -/
structure Directory where
  matchesSize : Nat → Nat → Bool
  sizeDistance : Nat → Nat → Nat

instance : Inhabited Directory := ⟨⟨fun _ _ => false, fun _ _ => 0⟩⟩

/-- Modelled from the spec: an icon file handle (the excluded `IconFile`)
records its own icon name; equality is by resource identity, modelled as
structural equality of the record. -/
structure IconFile where
  iconName : String
  path : String
deriving DecidableEq, Repr

/-- A `DirectoryRef` is a positional index into the owning theme's ordered
directory list (`src/cache.rs` stores these in the memo table). -/
abbrev DirectoryRef := Nat

/-- Modelled from the spec: a theme graph node (the excluded `Theme`) holds an
ordered directory descriptor list, the ordered (directory-reference,
icon-file) pairs produced by scanning the theme's directories (the
collaborator's candidate enumeration, stored here as data since the real code
does file-system I/O), and an ordered list of parent themes. -/
inductive Theme : Type where
  | mk : List Directory → List (DirectoryRef × IconFile) → List Theme → Theme

/-- The theme's ordered directory descriptor list (`theme.info.index.directories`). -/
def Theme.directories : Theme → List Directory
  | .mk d _ _ => d

/-- All (directory-reference, icon-file) pairs of the theme, in scan order. -/
def Theme.files : Theme → List (DirectoryRef × IconFile)
  | .mk _ f _ => f

/-- The ordered inheritance list (`theme.inherits_from`). -/
def Theme.inherits_from : Theme → List Theme
  | .mk _ _ p => p

/-- Modelled from the spec: `Theme::find_icon_files` enumerates every
directory/file pair of the theme matching the given icon name, in scan
order — here, the stored scan filtered by recorded icon name. -/
def Theme.find_icon_files (t : Theme) (name : String) : List (DirectoryRef × IconFile) :=
  t.files.filter (fun p => p.2.iconName == name)

/-- Indexing `directories[i]`. The Rust code indexes unconditionally (panicking
out of bounds); the embedding totalises with a default descriptor, and the
in-bounds invariant is proved separately so the default is never consulted. -/
def dirAt (dirs : List Directory) (i : Nat) : Directory :=
  (dirs[i]?).getD default

/-- Fold step of Rust's `Iterator::min_by_key`: keep the accumulator unless the
new element's key is strictly smaller, so the first minimal element wins. -/
def minByKeyGo {α : Type} (f : α → Nat) (b : α) : List α → α
  | [] => b
  | a :: as => minByKeyGo f (if f a < f b then a else b) as

/-- Rust's `Iterator::min_by_key`: `none` on an empty list, otherwise the first
element attaining the minimal key. -/
def minByKey {α : Type} (f : α → Nat) : List α → Option α
  | [] => none
  | x :: xs => some (minByKeyGo f x xs)

/-- Modelled from the spec: the uncached `Theme::find_icon_here` (excluded
collaborator, kept in sync with the cached version per the comment in
`src/cache.rs`): first exact (size, scale) match in stored order, else the
first candidate attaining the minimal size/scale distance, else no match. -/
def Theme.find_icon_here (t : Theme) (icon_name : String) (size scale : Nat) :
    Option IconFile :=
  let icon_files := t.find_icon_files icon_name
  match icon_files.find? (fun p => (dirAt t.directories p.1).matchesSize size scale) with
  | some p => some p.2
  | none =>
    (minByKey (fun p => (dirAt t.directories p.1).sizeDistance size scale) icon_files).map
      (fun p => p.2)

/-- Modelled from the spec: the uncached `Theme::find_icon`: a local match,
else the first non-empty local match among the parents in inheritance order. -/
def Theme.find_icon (t : Theme) (icon_name : String) (size scale : Nat) :
    Option IconFile :=
  match t.find_icon_here icon_name size scale with
  | some i => some i
  | none => t.inherits_from.findSome? (fun p => p.find_icon_here icon_name size scale)

/-- Association-list lookup, modelling `HashMap::get` / trie lookup by key. -/
def lookupA {α : Type} (l : List (String × α)) (k : String) : Option α :=
  match l.find? (fun kv => kv.1 == k) with
  | some kv => some kv.2
  | none => none

/-- Replace the value stored at a present key, modelling in-place mutation
through `get_mut` / `entry`. -/
def updateA {α : Type} (l : List (String × α)) (k : String) (v : α) :
    List (String × α) :=
  l.map (fun kv => if kv.1 = k then (k, v) else kv)

/-- Insert-or-replace, modelling the map `entry` API's materialisation. -/
def upsertA {α : Type} (l : List (String × α)) (k : String) (v : α) :
    List (String × α) :=
  if (lookupA l k).isSome then updateA l k v else l ++ [(k, v)]

/-- Modelled from the spec: the uncached top-level index (the excluded
`Icons`): a theme map keyed by theme name and the standalone-icon lookup
collaborator. -/
structure Icons where
  themes : List (String × Theme)
  standalone : String → Option IconFile

/-- `Icons::theme`: look a theme up by name. -/
def Icons.theme (ic : Icons) (k : String) : Option Theme :=
  lookupA ic.themes k

/-- `Icons::find_standalone_icon`: pass-through to the standalone collaborator. -/
def Icons.find_standalone_icon (ic : Icons) (icon_name : String) : Option IconFile :=
  ic.standalone icon_name

/-- Modelled from the spec: the uncached `Icons::find_icon`, which the cache
must match exactly: empty-name guard, theme resolution with `"hicolor"`
fallback, themed lookup, then standalone fallback. -/
def Icons.find_icon (ic : Icons) (icon_name : String) (size scale : Nat)
    (theme : String) : Option IconFile :=
  if icon_name = "" then none
  else
    match (match ic.theme theme with
           | some t => some t
           | none => ic.theme "hicolor") with
    | none => none
    | some t =>
      match t.find_icon icon_name size scale with
      | some i => some i
      | none => ic.find_standalone_icon icon_name

/-- Modelled from the spec: `Icons::find_all_icons` enumerates every
(theme-name, directory-reference, icon-file) triple across all themes in one
pass; the Rust triple carries the theme and a directory pointer, identified
here by the theme's map key and the directory's positional index. -/
def Icons.find_all_icons (ic : Icons) : List (String × DirectoryRef × IconFile) :=
  (ic.themes.map (fun kt => kt.2.files.map (fun p => (kt.1, p.1, p.2)))).flatten

/-- `ThemeCache` (`src/cache.rs`): a shared theme graph node plus the memo
table from icon name to its candidate list. -/
structure ThemeCache where
  theme : Theme
  cache : List (String × List (DirectoryRef × IconFile))

/-- `ThemeCache::from_theme`: an empty memo table around the shared node. -/
def ThemeCache.from_theme (t : Theme) : ThemeCache :=
  ⟨t, []⟩

/-- `ThemeCache::find_icon_here` (`src/cache.rs` lines 173-202): memoise the
candidate list on first use (inserting even an empty list), then return the
first exact (size, scale) match in stored order, else the minimum-distance
candidate (first minimal wins), else no match. State-passing models the
`&mut self` mutation of the memo table. -/
def ThemeCache.find_icon_here (tc : ThemeCache) (icon_name : String)
    (size scale : Nat) : Option IconFile × ThemeCache :=
  let step : List (DirectoryRef × IconFile) × ThemeCache :=
    match lookupA tc.cache icon_name with
    | some fs => (fs, tc)
    | none =>
      let fs := tc.theme.find_icon_files icon_name
      (fs, { tc with cache := tc.cache ++ [(icon_name, fs)] })
  let icon_files := step.1
  let tc := step.2
  match icon_files.find? (fun p => (dirAt tc.theme.directories p.1).matchesSize size scale) with
  | some p => (some p.2, tc)
  | none =>
    ((minByKey (fun p => (dirAt tc.theme.directories p.1).sizeDistance size scale)
        icon_files).map (fun p => p.2), tc)

/-- `ThemeCache::find_icon` (`src/cache.rs` lines 158-166): local cached match,
else the first non-empty uncached local match among the parents. -/
def ThemeCache.find_icon (tc : ThemeCache) (icon_name : String) (size scale : Nat) :
    Option IconFile × ThemeCache :=
  match tc.find_icon_here icon_name size scale with
  | (some i, tc) => (some i, tc)
  | (none, tc) =>
    (tc.theme.inherits_from.findSome? (fun th => th.find_icon_here icon_name size scale), tc)

/-- `ThemeCache::clear_cache`: empties the memo table. -/
def ThemeCache.clear_cache (tc : ThemeCache) : ThemeCache :=
  { tc with cache := [] }

/-- `IconsCache` (`src/cache.rs`): the source `Icons` plus the mirrored
theme-name-to-`ThemeCache` map. -/
structure IconsCache where
  icons : Icons
  themes : List (String × ThemeCache)

/-- `From<Icons> for IconsCache` (`src/cache.rs` lines 129-139): one fresh
`ThemeCache` per theme of the source. -/
def IconsCache.from_icons (icons : Icons) : IconsCache :=
  ⟨icons, icons.themes.map (fun kv => (kv.1, ThemeCache.from_theme kv.2))⟩

/-- `IconsCache::find_standalone_icon`: pass-through, never cached. -/
def IconsCache.find_standalone_icon (c : IconsCache) (icon_name : String) :
    Option IconFile :=
  c.icons.find_standalone_icon icon_name

/-- The body of `IconsCache::find_icon` once the theme key is resolved: look
the `ThemeCache` up (no match when absent, modelling the `?` on the
`"hicolor"` fallback), run its cached lookup, write the mutated cache back,
and fall back to the standalone lookup on miss. -/
def IconsCache.find_icon_at (c : IconsCache) (icon_name : String) (size scale : Nat)
    (key : String) : Option IconFile × IconsCache :=
  match lookupA c.themes key with
  | none => (none, c)
  | some tc =>
    match tc.find_icon icon_name size scale with
    | (r, tc2) =>
      let c2 : IconsCache := { c with themes := updateA c.themes key tc2 }
      match r with
      | some i => (some i, c2)
      | none => (c2.find_standalone_icon icon_name, c2)

/-- `IconsCache::find_icon` (`src/cache.rs` lines 51-70): empty-name guard,
theme resolution with `"hicolor"` fallback, cached themed lookup, then
standalone fallback. -/
def IconsCache.find_icon (c : IconsCache) (icon_name : String) (size scale : Nat)
    (theme : String) : Option IconFile × IconsCache :=
  if icon_name = "" then (none, c)
  else
    c.find_icon_at icon_name size scale
      (if (lookupA c.themes theme).isSome then theme else "hicolor")

/-- One step of `IconsCache::pre_populate_cache` (`src/cache.rs` lines 77-100):
for a (theme-name, directory-reference, icon-file) triple, find the theme's
cache entry (skipping when absent), resolve the directory positionally
(skipping when it cannot be located), and append the pair to that icon name's
candidate list, creating it when absent. -/
def IconsCache.insertTriple (c : IconsCache) (tr : String × DirectoryRef × IconFile) :
    IconsCache :=
  match lookupA c.themes tr.1 with
  | none => c
  | some tc =>
    if tr.2.1 < tc.theme.directories.length then
      let name := tr.2.2.iconName
      let fs := (lookupA tc.cache name).getD []
      let tc2 := { tc with cache := upsertA tc.cache name (fs ++ [tr.2]) }
      { c with themes := updateA c.themes tr.1 tc2 }
    else c

/-- `IconsCache::pre_populate_cache`: fold `insertTriple` over the bulk
enumeration of the source index. -/
def IconsCache.pre_populate_cache (c : IconsCache) : IconsCache :=
  c.icons.find_all_icons.foldl IconsCache.insertTriple c

/-- Clearing one theme's memo table through `theme_cache_mut` +
`ThemeCache::clear_cache`. -/
def IconsCache.clear_theme (c : IconsCache) (k : String) : IconsCache :=
  match lookupA c.themes k with
  | none => c
  | some tc => { c with themes := updateA c.themes k tc.clear_cache }

/-- The mutating operations a user can perform on an `IconsCache`. -/
inductive COp : Type where
  | find (icon_name : String) (size scale : Nat) (theme : String)
  | prepop
  | clearTheme (theme : String)

/-- Apply one operation to a cache. -/
def applyOp (c : IconsCache) : COp → IconsCache
  | .find n s sc th => (c.find_icon n s sc th).2
  | .prepop => c.pre_populate_cache
  | .clearTheme th => c.clear_theme th

/-- Apply a sequence of operations to a cache. -/
def applyOps (c : IconsCache) (ops : List COp) : IconsCache :=
  ops.foldl applyOp c

/-- All directory references recorded in a theme's scan are in bounds of its
directory list (guaranteed by the enumeration collaborator). -/
def Theme.wfFiles (t : Theme) : Prop :=
  ∀ p ∈ t.files, p.1 < t.directories.length

instance (t : Theme) : Decidable t.wfFiles := by
  unfold Theme.wfFiles; infer_instance

/-- Well-formedness of the source index: theme names are distinct (it is a
`HashMap`) and every theme's scan is in bounds. -/
def Icons.wf (ic : Icons) : Prop :=
  (ic.themes.map Prod.fst).Nodup ∧ ∀ kt ∈ ic.themes, Theme.wfFiles kt.2

instance (ic : Icons) : Decidable ic.wf := by
  unfold Icons.wf; infer_instance

/-! ### Association-list lemmas -/

theorem lookupA_nil {α : Type} (k : String) : lookupA ([] : List (String × α)) k = none := rfl

theorem lookupA_cons {α : Type} (a : String) (v : α) (l : List (String × α)) (k : String) :
    lookupA ((a, v) :: l) k = if a = k then some v else lookupA l k := by
  by_cases h : a = k
  · have hb : ((a, v).1 == k) = true := by simpa using h
    simp [lookupA, List.find?, hb, h]
  · have hb : ((a, v).1 == k) = false := by simpa using h
    simp [lookupA, List.find?, hb, h]

theorem updateA_cons {α : Type} (a : String) (b : α) (t : List (String × α)) (k : String)
    (v : α) :
    updateA ((a, b) :: t) k v = (if a = k then (k, v) else (a, b)) :: updateA t k v := by
  by_cases h : a = k <;> simp [updateA, h]

theorem lookupA_append_sngl {α : Type} (l : List (String × α)) (k : String) (v : α) :
    lookupA (l ++ [(k, v)]) k = some ((lookupA l k).getD v) := by
  induction l with
  | nil => simp [lookupA_nil, lookupA_cons]
  | cons a t ih =>
    rcases a with ⟨a1, a2⟩
    rw [List.cons_append, lookupA_cons, lookupA_cons]
    by_cases h : a1 = k
    · simp [h]
    · simp [h, ih]

theorem lookupA_append_sngl_ne {α : Type} (l : List (String × α)) (k m : String) (v : α)
    (h : m ≠ k) : lookupA (l ++ [(k, v)]) m = lookupA l m := by
  induction l with
  | nil =>
    have hk : ¬(k = m) := fun hh => h hh.symm
    simp [lookupA_nil, lookupA_cons, hk]
  | cons a t ih =>
    rcases a with ⟨a1, a2⟩
    rw [List.cons_append, lookupA_cons, lookupA_cons]
    by_cases hh : a1 = m
    · simp [hh]
    · simp [hh, ih]

theorem lookupA_updateA_self {α : Type} (l : List (String × α)) (k : String) (v : α) :
    lookupA (updateA l k v) k = (lookupA l k).map (fun _ => v) := by
  induction l with
  | nil => simp [updateA, lookupA_nil]
  | cons a t ih =>
    rcases a with ⟨a1, a2⟩
    rw [updateA_cons, lookupA_cons]
    by_cases h : a1 = k
    · rw [if_pos h, lookupA_cons, if_pos rfl, if_pos h]
      rfl
    · rw [if_neg h, lookupA_cons, if_neg h, if_neg h, ih]

theorem lookupA_updateA_ne {α : Type} (l : List (String × α)) (k m : String) (v : α)
    (h : m ≠ k) : lookupA (updateA l k v) m = lookupA l m := by
  induction l with
  | nil => simp [updateA, lookupA_nil]
  | cons a t ih =>
    rcases a with ⟨a1, a2⟩
    rw [updateA_cons, lookupA_cons]
    by_cases hh : a1 = k
    · have hk : ¬(k = m) := fun hkk => h hkk.symm
      rw [if_pos hh, lookupA_cons, if_neg hk, ih]
      subst hh
      rw [if_neg hk]
    · rw [if_neg hh, lookupA_cons]
      by_cases hm : a1 = m
      · rw [if_pos hm, if_pos hm]
      · rw [if_neg hm, if_neg hm, ih]

theorem lookupA_upsertA_self {α : Type} (l : List (String × α)) (k : String) (v : α) :
    lookupA (upsertA l k v) k = some v := by
  unfold upsertA
  cases ho : lookupA l k with
  | some w => simp [ho, lookupA_updateA_self]
  | none => simp [ho, lookupA_append_sngl]

theorem lookupA_upsertA_ne {α : Type} (l : List (String × α)) (k m : String) (v : α)
    (h : m ≠ k) : lookupA (upsertA l k v) m = lookupA l m := by
  unfold upsertA
  cases ho : lookupA l k with
  | some w => simp [lookupA_updateA_ne _ _ _ _ h]
  | none => simp [lookupA_append_sngl_ne _ _ _ _ h]

theorem mapfst_updateA {α : Type} (l : List (String × α)) (k : String) (v : α) :
    (updateA l k v).map Prod.fst = l.map Prod.fst := by
  induction l with
  | nil => rfl
  | cons a t ih =>
    rcases a with ⟨a1, a2⟩
    rw [updateA_cons, List.map_cons, List.map_cons, ih]
    by_cases h : a1 = k
    · rw [if_pos h, h]
    · rw [if_neg h]

theorem lookupA_mapval {α β : Type} (l : List (String × α)) (g : α → β) (k : String) :
    lookupA (l.map (fun kv => (kv.1, g kv.2))) k = (lookupA l k).map g := by
  induction l with
  | nil => rfl
  | cons a t ih =>
    rcases a with ⟨a1, a2⟩
    rw [List.map_cons]
    rw [show ((fun kv => ((kv : String × α).1, g kv.2)) (a1, a2) :: List.map (fun kv => (kv.1, g kv.2)) t)
          = ((a1, g a2) :: List.map (fun kv => (kv.1, g kv.2)) t) from rfl]
    rw [lookupA_cons, lookupA_cons]
    by_cases h : a1 = k
    · rw [if_pos h, if_pos h]
      rfl
    · rw [if_neg h, if_neg h, ih]

theorem lookupA_mem {α : Type} (l : List (String × α)) (k : String) (v : α)
    (h : lookupA l k = some v) : (k, v) ∈ l := by
  induction l with
  | nil => simp [lookupA_nil] at h
  | cons a t ih =>
    rcases a with ⟨a1, a2⟩
    rw [lookupA_cons] at h
    by_cases hh : a1 = k
    · rw [if_pos hh] at h
      subst hh
      simp only [Option.some.injEq] at h
      subst h
      exact List.mem_cons_self _ _
    · rw [if_neg hh] at h
      exact List.mem_cons_of_mem _ (ih h)

theorem mem_updateA {α : Type} (l : List (String × α)) (k : String) (v : α)
    (e : String × α) (h : e ∈ updateA l k v) : e ∈ l ∨ e = (k, v) := by
  unfold updateA at h
  rcases List.mem_map.mp h with ⟨kv, hkv, heq⟩
  by_cases hh : kv.1 = k
  · right
    rw [← heq, if_pos hh]
  · left
    rw [← heq, if_neg hh]
    exact hkv

theorem mem_upsertA {α : Type} (l : List (String × α)) (k : String) (v : α)
    (e : String × α) (h : e ∈ upsertA l k v) : e ∈ l ∨ e = (k, v) := by
  unfold upsertA at h
  by_cases hs : (lookupA l k).isSome
  · rw [if_pos hs] at h
    exact mem_updateA _ _ _ _ h
  · rw [if_neg hs] at h
    rcases List.mem_append.mp h with h1 | h1
    · exact Or.inl h1
    · simp only [List.mem_singleton] at h1
      exact Or.inr h1

/-! ### Scan characterisation lemmas -/

theorem minByKeyGo_of_le {α : Type} (f : α → Nat) (b : α) (l : List α)
    (h : ∀ a ∈ l, f b ≤ f a) : minByKeyGo f b l = b := by
  induction l with
  | nil => rfl
  | cons a as ih =>
    have hba : f b ≤ f a := h a (List.mem_cons_self _ _)
    have hlt : ¬(f a < f b) := not_lt.mpr hba
    show minByKeyGo f (if f a < f b then a else b) as = b
    rw [if_neg hlt]
    exact ih (fun x hx => h x (List.mem_cons_of_mem _ hx))

theorem minByKeyGo_first_min {α : Type} (f : α → Nat) (l : List α) (b : α) (i : Nat)
    (hi : i < l.length) (hb : f (l.get ⟨i, hi⟩) < f b)
    (hmin : ∀ j (hj : j < l.length), f (l.get ⟨i, hi⟩) ≤ f (l.get ⟨j, hj⟩))
    (hfirst : ∀ j (hj : j < i), f (l.get ⟨i, hi⟩) < f (l.get ⟨j, hj.trans hi⟩)) :
    minByKeyGo f b l = l.get ⟨i, hi⟩ := by
  induction l generalizing b i with
  | nil => exact absurd hi (Nat.not_lt_zero i)
  | cons a as ih =>
    cases i with
    | zero =>
      have hget : (a :: as).get ⟨0, hi⟩ = a := rfl
      rw [hget] at hb hmin ⊢
      show minByKeyGo f (if f a < f b then a else b) as = a
      rw [if_pos hb]
      refine minByKeyGo_of_le f a as (fun x hx => ?_)
      rcases List.mem_iff_get.mp hx with ⟨n, hn⟩
      have := hmin (n.1 + 1) (Nat.succ_lt_succ n.2)
      rw [← hn]
      exact this
    | succ j =>
      have hj : j < as.length := Nat.lt_of_succ_lt_succ hi
      have hget : (a :: as).get ⟨j + 1, hi⟩ = as.get ⟨j, hj⟩ := rfl
      have hlt0 : f ((a :: as).get ⟨j + 1, hi⟩) < f a := hfirst 0 (Nat.succ_pos j)
      show minByKeyGo f (if f a < f b then a else b) as = (a :: as).get ⟨j + 1, hi⟩
      rw [hget] at hlt0 ⊢
      refine ih _ j hj ?_ ?_ ?_
      · by_cases hab : f a < f b
        · rw [if_pos hab]; exact hlt0
        · rw [if_neg hab]
          rw [hget] at hb
          exact hb
      · intro j2 hj2
        have := hmin (j2 + 1) (Nat.succ_lt_succ hj2)
        rw [hget] at this
        exact this
      · intro j2 hj2
        have := hfirst (j2 + 1) (Nat.succ_lt_succ hj2)
        rw [hget] at this
        exact this

theorem minByKey_first_min {α : Type} (f : α → Nat) (l : List α) (i : Nat)
    (hi : i < l.length)
    (hmin : ∀ j (hj : j < l.length), f (l.get ⟨i, hi⟩) ≤ f (l.get ⟨j, hj⟩))
    (hfirst : ∀ j (hj : j < i), f (l.get ⟨i, hi⟩) < f (l.get ⟨j, hj.trans hi⟩)) :
    minByKey f l = some (l.get ⟨i, hi⟩) := by
  cases l with
  | nil => exact absurd hi (Nat.not_lt_zero i)
  | cons a as =>
    show some (minByKeyGo f a as) = _
    cases i with
    | zero =>
      have hget : (a :: as).get ⟨0, hi⟩ = a := rfl
      rw [hget]
      rw [hget] at hmin
      congr 1
      refine minByKeyGo_of_le f a as (fun x hx => ?_)
      rcases List.mem_iff_get.mp hx with ⟨n, hn⟩
      have := hmin (n.1 + 1) (Nat.succ_lt_succ n.2)
      rw [← hn]
      exact this
    | succ j =>
      congr 1
      have hj : j < as.length := Nat.lt_of_succ_lt_succ hi
      have hb : f ((a :: as).get ⟨j + 1, hi⟩) < f a := hfirst 0 (Nat.succ_pos j)
      have hget : (a :: as).get ⟨j + 1, hi⟩ = as.get ⟨j, hj⟩ := rfl
      rw [hget] at hb
      have := minByKeyGo_first_min f as a j hj hb ?_ ?_
      · rw [hget, this]
      · intro j2 hj2
        have h2 := hmin (j2 + 1) (Nat.succ_lt_succ hj2)
        rw [hget] at h2
        exact h2
      · intro j2 hj2
        have h2 := hfirst (j2 + 1) (Nat.succ_lt_succ hj2)
        rw [hget] at h2
        exact h2

theorem find?_first {α : Type} (p : α → Bool) (l : List α) (i : Nat) (hi : i < l.length)
    (hp : p (l.get ⟨i, hi⟩) = true)
    (hbefore : ∀ j (hj : j < i), p (l.get ⟨j, hj.trans hi⟩) = false) :
    l.find? p = some (l.get ⟨i, hi⟩) := by
  induction l generalizing i with
  | nil => exact absurd hi (Nat.not_lt_zero i)
  | cons a as ih =>
    cases i with
    | zero =>
      have hget : (a :: as).get ⟨0, hi⟩ = a := rfl
      rw [hget] at hp ⊢
      simp [List.find?, hp]
    | succ j =>
      have hj : j < as.length := Nat.lt_of_succ_lt_succ hi
      have ha : p a = false := hbefore 0 (Nat.succ_pos j)
      have hget : (a :: as).get ⟨j + 1, hi⟩ = as.get ⟨j, hj⟩ := rfl
      rw [hget] at hp ⊢
      rw [show (a :: as).find? p = as.find? p by simp [List.find?, ha]]
      refine ih j hj hp (fun j2 hj2 => ?_)
      have := hbefore (j2 + 1) (Nat.succ_lt_succ hj2)
      rw [show (a :: as).get ⟨j2 + 1, (Nat.succ_lt_succ hj2).trans hi⟩
            = as.get ⟨j2, hj2.trans hj⟩ from rfl] at this
      exact this

theorem findSome?_first {α β : Type} (f : α → Option β) (l : List α) (i : Nat)
    (hi : i < l.length) (v : β) (hv : f (l.get ⟨i, hi⟩) = some v)
    (hbefore : ∀ j (hj : j < i), f (l.get ⟨j, hj.trans hi⟩) = none) :
    l.findSome? f = some v := by
  induction l generalizing i with
  | nil => exact absurd hi (Nat.not_lt_zero i)
  | cons a as ih =>
    cases i with
    | zero =>
      have hget : (a :: as).get ⟨0, hi⟩ = a := rfl
      rw [hget] at hv
      simp [List.findSome?, hv]
    | succ j =>
      have hj : j < as.length := Nat.lt_of_succ_lt_succ hi
      have ha : f a = none := hbefore 0 (Nat.succ_pos j)
      have hget : (a :: as).get ⟨j + 1, hi⟩ = as.get ⟨j, hj⟩ := rfl
      rw [hget] at hv
      rw [show (a :: as).findSome? f = as.findSome? f by simp [List.findSome?, ha]]
      refine ih j hj hv (fun j2 hj2 => ?_)
      have := hbefore (j2 + 1) (Nat.succ_lt_succ hj2)
      rw [show (a :: as).get ⟨j2 + 1, (Nat.succ_lt_succ hj2).trans hi⟩
            = as.get ⟨j2, hj2.trans hj⟩ from rfl] at this
      exact this

theorem findSome?_none {α β : Type} (f : α → Option β) (l : List α)
    (h : ∀ a ∈ l, f a = none) : l.findSome? f = none := by
  induction l with
  | nil => rfl
  | cons a as ih =>
    have ha : f a = none := h a (List.mem_cons_self _ _)
    rw [show (a :: as).findSome? f = as.findSome? f by simp [List.findSome?, ha]]
    exact ih (fun x hx => h x (List.mem_cons_of_mem _ hx))

/-! ### Structure of `ThemeCache.find_icon_here` -/

/-- The candidate list `find_icon_here` consults for a name: the memoised list
when present, otherwise the fresh enumeration it is about to memoise. -/
def ThemeCache.candidates (tc : ThemeCache) (n : String) : List (DirectoryRef × IconFile) :=
  match lookupA tc.cache n with
  | some fs => fs
  | none => tc.theme.find_icon_files n

theorem fih_fst (tc : ThemeCache) (n : String) (s sc : Nat) :
    (tc.find_icon_here n s sc).1 =
      match (tc.candidates n).find?
          (fun p => (dirAt tc.theme.directories p.1).matchesSize s sc) with
      | some p => some p.2
      | none =>
        (minByKey (fun p => (dirAt tc.theme.directories p.1).sizeDistance s sc)
            (tc.candidates n)).map (fun p => p.2) := by
  unfold ThemeCache.find_icon_here ThemeCache.candidates
  cases h : lookupA tc.cache n with
  | some fs =>
    simp only [h]
    cases hf : fs.find? (fun p => (dirAt tc.theme.directories p.1).matchesSize s sc) <;>
      simp [hf]
  | none =>
    simp only [h]
    cases hf : (tc.theme.find_icon_files n).find?
        (fun p => (dirAt tc.theme.directories p.1).matchesSize s sc) <;>
      simp [hf]

theorem fih_snd (tc : ThemeCache) (n : String) (s sc : Nat) :
    (tc.find_icon_here n s sc).2 =
      match lookupA tc.cache n with
      | some _ => tc
      | none => { tc with cache := tc.cache ++ [(n, tc.theme.find_icon_files n)] } := by
  unfold ThemeCache.find_icon_here
  cases h : lookupA tc.cache n with
  | some fs =>
    simp only [h]
    cases hf : fs.find? (fun p => (dirAt tc.theme.directories p.1).matchesSize s sc) <;>
      simp [hf]
  | none =>
    simp only [h]
    cases hf : (tc.theme.find_icon_files n).find?
        (fun p => (dirAt tc.theme.directories p.1).matchesSize s sc) <;>
      simp [hf]

theorem fih_theme (tc : ThemeCache) (n : String) (s sc : Nat) :
    (tc.find_icon_here n s sc).2.theme = tc.theme := by
  rw [fih_snd]
  cases h : lookupA tc.cache n <;> rfl

theorem fih_lookup_self (tc : ThemeCache) (n : String) (s sc : Nat) :
    lookupA ((tc.find_icon_here n s sc).2).cache n = some (tc.candidates n) := by
  rw [fih_snd]
  unfold ThemeCache.candidates
  cases h : lookupA tc.cache n with
  | some fs => exact h
  | none =>
    show lookupA (tc.cache ++ [(n, tc.theme.find_icon_files n)]) n = _
    rw [lookupA_append_sngl, h]
    rfl

theorem fih_lookup_frame (tc : ThemeCache) (n : String) (s sc : Nat) (m : String)
    (hm : m ≠ n) :
    lookupA ((tc.find_icon_here n s sc).2).cache m = lookupA tc.cache m := by
  rw [fih_snd]
  cases h : lookupA tc.cache n with
  | some fs => rfl
  | none =>
    show lookupA (tc.cache ++ [(n, tc.theme.find_icon_files n)]) m = _
    exact lookupA_append_sngl_ne _ _ _ _ hm

theorem fih_candidates (tc : ThemeCache) (n : String) (s sc : Nat) :
    ((tc.find_icon_here n s sc).2).candidates n = tc.candidates n := by
  unfold ThemeCache.candidates
  rw [fih_lookup_self]
  rfl

theorem find_snd_eq_fih_snd (tc : ThemeCache) (n : String) (s sc : Nat) :
    (tc.find_icon n s sc).2 = (tc.find_icon_here n s sc).2 := by
  unfold ThemeCache.find_icon
  cases h : tc.find_icon_here n s sc with
  | mk r tc1 =>
    cases r <;> rfl

theorem find_theme (tc : ThemeCache) (n : String) (s sc : Nat) :
    (tc.find_icon n s sc).2.theme = tc.theme := by
  rw [find_snd_eq_fih_snd, fih_theme]

/-! ### Coherence: the memo table never disagrees with the enumeration -/

/-- A memo table is coherent when every stored candidate list is exactly the
collaborator's enumeration for that name. -/
def ThemeCache.coherent (tc : ThemeCache) : Prop :=
  ∀ n fs, lookupA tc.cache n = some fs → fs = tc.theme.find_icon_files n

theorem coherent_from_theme (t : Theme) : (ThemeCache.from_theme t).coherent := by
  intro n fs h
  simp [ThemeCache.from_theme, lookupA_nil] at h

theorem coherent_candidates (tc : ThemeCache) (hc : tc.coherent) (n : String) :
    tc.candidates n = tc.theme.find_icon_files n := by
  unfold ThemeCache.candidates
  cases h : lookupA tc.cache n with
  | some fs => exact hc n fs h
  | none => rfl

theorem coherent_fih_fst (tc : ThemeCache) (hc : tc.coherent) (n : String) (s sc : Nat) :
    (tc.find_icon_here n s sc).1 = tc.theme.find_icon_here n s sc := by
  rw [fih_fst, coherent_candidates tc hc]
  rfl

theorem coherent_fih_snd (tc : ThemeCache) (hc : tc.coherent) (n : String) (s sc : Nat) :
    ((tc.find_icon_here n s sc).2).coherent := by
  rw [fih_snd]
  cases h : lookupA tc.cache n with
  | some fs => exact hc
  | none =>
    intro m fs hm
    show fs = tc.theme.find_icon_files m
    by_cases hmn : m = n
    · subst hmn
      rw [show ({ tc with cache := tc.cache ++ [(m, tc.theme.find_icon_files m)] } :
            ThemeCache).cache = tc.cache ++ [(m, tc.theme.find_icon_files m)] from rfl,
          lookupA_append_sngl, h] at hm
      simp only [Option.some.injEq] at hm
      rw [← hm]
      rfl
    · rw [show ({ tc with cache := tc.cache ++ [(n, tc.theme.find_icon_files n)] } :
            ThemeCache).cache = tc.cache ++ [(n, tc.theme.find_icon_files n)] from rfl,
          lookupA_append_sngl_ne _ _ _ _ hmn] at hm
      exact hc m fs hm

theorem coherent_find_fst (tc : ThemeCache) (hc : tc.coherent) (n : String) (s sc : Nat) :
    (tc.find_icon n s sc).1 = tc.theme.find_icon n s sc := by
  unfold ThemeCache.find_icon Theme.find_icon
  have h1 := coherent_fih_fst tc hc n s sc
  cases hr : tc.find_icon_here n s sc with
  | mk r tc1 =>
    rw [hr] at h1
    cases r with
    | some i =>
      simp only []
      rw [← h1]
    | none =>
      simp only []
      rw [← h1]
      have ht : tc1.theme = tc.theme := by
        have := fih_theme tc n s sc
        rw [hr] at this
        exact this
      rw [ht]

theorem fih_idem (tc : ThemeCache) (n : String) (s sc : Nat) :
    ((tc.find_icon_here n s sc).2).find_icon_here n s sc = tc.find_icon_here n s sc := by
  have h1 : (((tc.find_icon_here n s sc).2).find_icon_here n s sc).1 =
      (tc.find_icon_here n s sc).1 := by
    rw [fih_fst, fih_fst, fih_candidates, fih_theme]
  have h2 : (((tc.find_icon_here n s sc).2).find_icon_here n s sc).2 =
      (tc.find_icon_here n s sc).2 := by
    rw [fih_snd ((tc.find_icon_here n s sc).2), fih_lookup_self]
  exact Prod.ext h1 h2

/-! ### Agreement between an `IconsCache` and its source index -/

/-- The cache mirrors the index: same underlying `Icons`, value-wise the same
theme map, and every memo table coherent. -/
def IconsCache.agrees (c : IconsCache) (ic : Icons) : Prop :=
  c.icons = ic ∧
  (∀ k, (lookupA c.themes k).map ThemeCache.theme = lookupA ic.themes k) ∧
  (∀ k tc, lookupA c.themes k = some tc → tc.coherent)

theorem agrees_from_icons (ic : Icons) : (IconsCache.from_icons ic).agrees ic := by
  refine ⟨rfl, ?_, ?_⟩
  · intro k
    show (lookupA (ic.themes.map (fun kv => (kv.1, ThemeCache.from_theme kv.2))) k).map
        ThemeCache.theme = lookupA ic.themes k
    rw [lookupA_mapval]
    cases lookupA ic.themes k <;> rfl
  · intro k tc h
    replace h : lookupA (ic.themes.map (fun kv => (kv.1, ThemeCache.from_theme kv.2))) k
        = some tc := h
    rw [lookupA_mapval] at h
    cases ho : lookupA ic.themes k with
    | none => rw [ho] at h; cases h
    | some t =>
      rw [ho] at h
      have h2 : some (ThemeCache.from_theme t) = some tc := h
      injection h2 with h3
      rw [← h3]
      exact coherent_from_theme t

theorem find_icon_at_some (c : IconsCache) (ic : Icons) (hic : c.icons = ic)
    (k : String) (tc2 : ThemeCache) (hk : lookupA c.themes k = some tc2)
    (hco : tc2.coherent) (n : String) (s sc : Nat) :
    (c.find_icon_at n s sc k).1 =
      match tc2.theme.find_icon n s sc with
      | some i => some i
      | none => ic.find_standalone_icon n := by
  have hr := coherent_find_fst tc2 hco n s sc
  unfold IconsCache.find_icon_at
  simp only [hk]
  rw [← hr]
  cases hfi : tc2.find_icon n s sc with
  | mk r tc3 =>
    cases r with
    | some i => rfl
    | none =>
      show ({ c with themes := updateA c.themes k tc3 } :
          IconsCache).find_standalone_icon n = ic.find_standalone_icon n
      show c.icons.find_standalone_icon n = ic.find_standalone_icon n
      rw [hic]

theorem find_icon_at_none (c : IconsCache) (k : String)
    (hk : lookupA c.themes k = none) (n : String) (s sc : Nat) :
    c.find_icon_at n s sc k = (none, c) := by
  unfold IconsCache.find_icon_at
  rw [hk]

theorem agrees_find_fst (c : IconsCache) (ic : Icons) (h : c.agrees ic) (n : String)
    (s sc : Nat) (th : String) :
    (c.find_icon n s sc th).1 = ic.find_icon n s sc th := by
  rcases h with ⟨hic, hmap, hcoh⟩
  unfold IconsCache.find_icon Icons.find_icon
  by_cases hn : n = ""
  · rw [if_pos hn, if_pos hn]
  · rw [if_neg hn, if_neg hn]
    cases hth : lookupA c.themes th with
    | some tc2 =>
      have hicth : ic.theme th = some tc2.theme := by
        show lookupA ic.themes th = _
        rw [← hmap th, hth]
        rfl
      rw [show (if (some tc2 : Option ThemeCache).isSome = true then th else "hicolor") = th
            from if_pos rfl,
          hicth]
      exact find_icon_at_some c ic hic th tc2 hth (hcoh th tc2 hth) n s sc
    | none =>
      have hicth : ic.theme th = none := by
        show lookupA ic.themes th = _
        rw [← hmap th, hth]
        rfl
      rw [show (if (none : Option ThemeCache).isSome = true then th else "hicolor") = "hicolor"
            from if_neg (by decide),
          hicth]
      cases hhc : lookupA c.themes "hicolor" with
      | some tc2 =>
        have hichc : ic.theme "hicolor" = some tc2.theme := by
          show lookupA ic.themes "hicolor" = _
          rw [← hmap "hicolor", hhc]
          rfl
        rw [hichc]
        exact find_icon_at_some c ic hic "hicolor" tc2 hhc (hcoh "hicolor" tc2 hhc) n s sc
      | none =>
        have hichc : ic.theme "hicolor" = none := by
          show lookupA ic.themes "hicolor" = _
          rw [← hmap "hicolor", hhc]
          rfl
        rw [hichc, find_icon_at_none c "hicolor" hhc n s sc]

/-! ### Characterising `pre_populate_cache` -/

/-- How one memo entry changes when a batch of pairs is appended to it:
nothing happens for an empty batch (no entry is created), otherwise the entry
is created (from `[]`) or extended. -/
def combineEntry (b : Option (List (DirectoryRef × IconFile)))
    (ps : List (DirectoryRef × IconFile)) : Option (List (DirectoryRef × IconFile)) :=
  match ps with
  | [] => b
  | _ => some (b.getD [] ++ ps)

/-- The triples of the bulk enumeration that land in theme `k`, icon name `n`,
and pass the positional-resolution bounds check. -/
def trOK (k : String) (len : Nat) (n : String)
    (tr : String × DirectoryRef × IconFile) : Bool :=
  tr.1 == k && tr.2.2.iconName == n && decide (tr.2.1 < len)

/-- The (directory-reference, icon-file) pairs a triple batch contributes to
the memo entry of icon name `n` in theme `k`. -/
def trPairs (ts : List (String × DirectoryRef × IconFile)) (k : String) (len : Nat)
    (n : String) : List (DirectoryRef × IconFile) :=
  (ts.filter (trOK k len n)).map (fun tr => tr.2)

theorem combineEntry_nil (b : Option (List (DirectoryRef × IconFile))) :
    combineEntry b [] = b := rfl

theorem combineEntry_append (b : Option (List (DirectoryRef × IconFile)))
    (ps qs : List (DirectoryRef × IconFile)) :
    combineEntry b (ps ++ qs) = combineEntry (combineEntry b ps) qs := by
  cases ps with
  | nil => rfl
  | cons p ps2 =>
    cases qs with
    | nil => simp [combineEntry]
    | cons q qs2 => simp [combineEntry, List.append_assoc]

theorem trPairs_nil (k : String) (len : Nat) (n : String) :
    trPairs [] k len n = [] := rfl

theorem trPairs_cons (tr : String × DirectoryRef × IconFile)
    (ts : List (String × DirectoryRef × IconFile)) (k : String) (len : Nat) (n : String) :
    trPairs (tr :: ts) k len n =
      (if trOK k len n tr = true then [tr.2] else []) ++ trPairs ts k len n := by
  unfold trPairs
  cases h : trOK k len n tr <;> simp [List.filter_cons, h]

theorem trPairs_sngl (tr : String × DirectoryRef × IconFile) (k : String) (len : Nat)
    (n : String) :
    trPairs [tr] k len n = if trOK k len n tr = true then [tr.2] else [] := by
  rw [trPairs_cons, trPairs_nil, List.append_nil]

theorem trPairs_cons_split (tr : String × DirectoryRef × IconFile)
    (ts : List (String × DirectoryRef × IconFile)) (k : String) (len : Nat) (n : String) :
    trPairs (tr :: ts) k len n = trPairs [tr] k len n ++ trPairs ts k len n := by
  rw [trPairs_cons, trPairs_sngl]

theorem trPairs_append (as bs : List (String × DirectoryRef × IconFile)) (k : String)
    (len : Nat) (n : String) :
    trPairs (as ++ bs) k len n = trPairs as k len n ++ trPairs bs k len n := by
  unfold trPairs
  rw [List.filter_append, List.map_append]

theorem insertTriple_icons (c : IconsCache) (tr : String × DirectoryRef × IconFile) :
    (c.insertTriple tr).icons = c.icons := by
  unfold IconsCache.insertTriple
  cases h : lookupA c.themes tr.1 with
  | none => rfl
  | some tc =>
    dsimp only
    by_cases hd : tr.2.1 < tc.theme.directories.length
    · rw [if_pos hd]
    · rw [if_neg hd]

theorem insertTriple_mapfst (c : IconsCache) (tr : String × DirectoryRef × IconFile) :
    (c.insertTriple tr).themes.map Prod.fst = c.themes.map Prod.fst := by
  unfold IconsCache.insertTriple
  cases h : lookupA c.themes tr.1 with
  | none => rfl
  | some tc =>
    dsimp only
    by_cases hd : tr.2.1 < tc.theme.directories.length
    · rw [if_pos hd]
      exact mapfst_updateA _ _ _
    · rw [if_neg hd]

theorem insertTriple_lookup_none (c : IconsCache) (tr : String × DirectoryRef × IconFile)
    (k : String) (hk : lookupA c.themes k = none) :
    lookupA (c.insertTriple tr).themes k = none := by
  unfold IconsCache.insertTriple
  cases h : lookupA c.themes tr.1 with
  | none => exact hk
  | some tc =>
    dsimp only
    by_cases hd : tr.2.1 < tc.theme.directories.length
    · rw [if_pos hd]
      by_cases he : k = tr.1
      · subst he
        rw [hk] at h
        cases h
      · show lookupA (updateA c.themes tr.1 _) k = none
        rw [lookupA_updateA_ne _ _ _ _ he, hk]
    · rw [if_neg hd]
      exact hk

theorem insertTriple_lookup (c : IconsCache) (tr : String × DirectoryRef × IconFile)
    (k : String) (tc : ThemeCache) (hk : lookupA c.themes k = some tc) :
    ∃ tc1, lookupA (c.insertTriple tr).themes k = some tc1 ∧
      tc1.theme = tc.theme ∧
      ∀ n, lookupA tc1.cache n =
        combineEntry (lookupA tc.cache n)
          (trPairs [tr] k tc.theme.directories.length n) := by
  rcases tr with ⟨k0, d, ico⟩
  unfold IconsCache.insertTriple
  cases h0 : lookupA c.themes k0 with
  | none =>
    have hne : ¬((k0, d, ico).1 == k) = true := by
      simp only [beq_iff_eq]
      intro he
      rw [he, hk] at h0
      cases h0
    refine ⟨tc, hk, rfl, fun n => ?_⟩
    rw [trPairs_sngl, if_neg (by simp [trOK, hne]), combineEntry_nil]
  | some tc0 =>
    dsimp only
    by_cases hd : d < tc0.theme.directories.length
    · rw [if_pos hd]
      by_cases he : k0 = k
      · subst he
        rw [hk] at h0
        injection h0 with h0e
        subst h0e
        refine ⟨⟨tc.theme,
            upsertA tc.cache ico.iconName ((lookupA tc.cache ico.iconName).getD [] ++ [(d, ico)])⟩,
            ?_, rfl, fun n => ?_⟩
        · dsimp only
          rw [lookupA_updateA_self, hk]
          rfl
        · dsimp only
          by_cases hn : n = ico.iconName
          · subst hn
            rw [lookupA_upsertA_self, trPairs_sngl,
                if_pos (by simp [trOK, hd])]
            cases hb : lookupA tc.cache ico.iconName <;>
              simp [combineEntry, hb]
          · rw [lookupA_upsertA_ne _ _ _ _ hn, trPairs_sngl,
                if_neg (by simp [trOK]; intro h2; exact absurd h2.symm hn),
                combineEntry_nil]
      · refine ⟨tc, ?_, rfl, fun n => ?_⟩
        · show lookupA (updateA c.themes k0 _) k = _
          rw [lookupA_updateA_ne _ _ _ _ (fun h2 => he h2.symm), hk]
        · rw [trPairs_sngl, if_neg (by simp [trOK]; intro h2; exact absurd h2 he),
              combineEntry_nil]
    · rw [if_neg hd]
      refine ⟨tc, hk, rfl, fun n => ?_⟩
      by_cases he : k0 = k
      · subst he
        rw [hk] at h0
        injection h0 with h0e
        subst h0e
        rw [trPairs_sngl,
            if_neg (by simp [trOK]; intro h2; exact Nat.le_of_not_lt hd),
            combineEntry_nil]
      · rw [trPairs_sngl, if_neg (by simp [trOK]; intro h2; exact absurd h2 he),
            combineEntry_nil]

theorem foldl_insertTriple_lookup_none (ts : List (String × DirectoryRef × IconFile))
    (c : IconsCache) (k : String) (hk : lookupA c.themes k = none) :
    lookupA (ts.foldl IconsCache.insertTriple c).themes k = none := by
  induction ts generalizing c with
  | nil => exact hk
  | cons tr ts2 ih =>
    exact ih (c.insertTriple tr) (insertTriple_lookup_none c tr k hk)

theorem foldl_insertTriple_lookup (ts : List (String × DirectoryRef × IconFile))
    (c : IconsCache) (k : String) (tc : ThemeCache)
    (hk : lookupA c.themes k = some tc) :
    ∃ tc1, lookupA (ts.foldl IconsCache.insertTriple c).themes k = some tc1 ∧
      tc1.theme = tc.theme ∧
      ∀ n, lookupA tc1.cache n =
        combineEntry (lookupA tc.cache n)
          (trPairs ts k tc.theme.directories.length n) := by
  induction ts generalizing c tc with
  | nil => exact ⟨tc, hk, rfl, fun n => (combineEntry_nil _).symm⟩
  | cons tr ts2 ih =>
    rcases insertTriple_lookup c tr k tc hk with ⟨tcm, hm, hthm, hcm⟩
    rcases ih (c.insertTriple tr) tcm hm with ⟨tc1, h1, hth1, hc1⟩
    refine ⟨tc1, h1, hth1.trans hthm, fun n => ?_⟩
    rw [hc1 n, hthm, hcm n,
        show trPairs (tr :: ts2) k tc.theme.directories.length n
            = trPairs [tr] k tc.theme.directories.length n
              ++ trPairs ts2 k tc.theme.directories.length n
          from trPairs_cons_split tr ts2 k tc.theme.directories.length n,
        combineEntry_append]

theorem foldl_insertTriple_icons (ts : List (String × DirectoryRef × IconFile))
    (c : IconsCache) :
    (ts.foldl IconsCache.insertTriple c).icons = c.icons := by
  induction ts generalizing c with
  | nil => rfl
  | cons tr ts2 ih => rw [List.foldl_cons, ih, insertTriple_icons]

theorem foldl_insertTriple_mapfst (ts : List (String × DirectoryRef × IconFile))
    (c : IconsCache) :
    (ts.foldl IconsCache.insertTriple c).themes.map Prod.fst = c.themes.map Prod.fst := by
  induction ts generalizing c with
  | nil => rfl
  | cons tr ts2 ih => rw [List.foldl_cons, ih, insertTriple_mapfst]

theorem lookupA_not_mem_keys {α : Type} (l : List (String × α)) (k : String)
    (h : k ∉ l.map Prod.fst) : lookupA l k = none := by
  induction l with
  | nil => rfl
  | cons a t ih =>
    rcases a with ⟨a1, a2⟩
    rw [lookupA_cons]
    simp only [List.map_cons, List.mem_cons, not_or] at h
    rw [if_neg (fun he => h.1 he.symm)]
    exact ih h.2

theorem trPairs_block_ne (fsl : List (DirectoryRef × IconFile)) (k1 k : String)
    (hne : k1 ≠ k) (len : Nat) (n : String) :
    trPairs (fsl.map (fun p => (k1, p.1, p.2))) k len n = [] := by
  induction fsl with
  | nil => rfl
  | cons p ps ih =>
    rw [List.map_cons, trPairs_cons, if_neg (by simp [trOK, hne]), ih]
    rfl

theorem trPairs_block_self (fsl : List (DirectoryRef × IconFile)) (k : String)
    (len : Nat) (n : String) (hb : ∀ p ∈ fsl, p.1 < len) :
    trPairs (fsl.map (fun p => (k, p.1, p.2))) k len n
      = fsl.filter (fun p => p.2.iconName == n) := by
  induction fsl with
  | nil => rfl
  | cons p ps ih =>
    have hp : p.1 < len := hb p (List.mem_cons_self _ _)
    have ihh := ih (fun q hq => hb q (List.mem_cons_of_mem _ hq))
    rw [List.map_cons, trPairs_cons, ihh, List.filter_cons]
    cases hn : (p.2.iconName == n) with
    | true =>
      rw [if_pos (by simp [trOK, hn, hp])]
      simp
    | false =>
      rw [if_neg (by simp [trOK, hn])]
      simp

theorem trPairs_flatten_not_mem (l : List (String × Theme)) (k : String)
    (h : k ∉ l.map Prod.fst) (len : Nat) (n : String) :
    trPairs ((l.map (fun kt => kt.2.files.map (fun p => (kt.1, p.1, p.2)))).flatten)
      k len n = [] := by
  induction l with
  | nil => rfl
  | cons kt l2 ih =>
    rcases kt with ⟨k1, t1⟩
    simp only [List.map_cons, List.mem_cons, not_or] at h
    rw [List.map_cons, List.flatten_cons, trPairs_append,
        trPairs_block_ne _ _ _ (fun he => h.1 he.symm),
        ih h.2]
    rfl

theorem trPairs_flatten_lookup (l : List (String × Theme)) (k : String) (t : Theme)
    (hnd : (l.map Prod.fst).Nodup) (hwf : ∀ kt ∈ l, Theme.wfFiles kt.2)
    (hk : lookupA l k = some t) (n : String) :
    trPairs ((l.map (fun kt => kt.2.files.map (fun p => (kt.1, p.1, p.2)))).flatten)
      k t.directories.length n = t.files.filter (fun p => p.2.iconName == n) := by
  induction l with
  | nil => rw [lookupA_nil] at hk; cases hk
  | cons kt l2 ih =>
    rcases kt with ⟨k1, t1⟩
    rw [List.map_cons, List.flatten_cons, trPairs_append]
    rw [lookupA_cons] at hk
    simp only [List.map_cons, List.nodup_cons] at hnd
    by_cases he : k1 = k
    · rw [if_pos he] at hk
      injection hk with hke
      subst hke
      subst he
      rw [trPairs_block_self t1.files k1 t1.directories.length n
            (hwf (k1, t1) (List.mem_cons_self _ _)),
          trPairs_flatten_not_mem l2 k1 hnd.1 t1.directories.length n,
          List.append_nil]
    · rw [if_neg he] at hk
      rw [trPairs_block_ne _ _ _ he, List.nil_append]
      exact ih hnd.2 (fun q hq => hwf q (List.mem_cons_of_mem _ hq)) hk

theorem trPairs_find_all (ic : Icons) (hnd : (ic.themes.map Prod.fst).Nodup)
    (hwf : ∀ kt ∈ ic.themes, Theme.wfFiles kt.2) (k : String) (t : Theme)
    (hk : lookupA ic.themes k = some t) (n : String) :
    trPairs ic.find_all_icons k t.directories.length n = t.find_icon_files n :=
  trPairs_flatten_lookup ic.themes k t hnd hwf hk n

theorem from_icons_lookup (ic : Icons) (k : String) :
    lookupA (IconsCache.from_icons ic).themes k
      = (lookupA ic.themes k).map ThemeCache.from_theme := by
  show lookupA (ic.themes.map (fun kv => (kv.1, ThemeCache.from_theme kv.2))) k = _
  exact lookupA_mapval _ _ _

theorem prepop_agrees (ic : Icons) (hw : ic.wf) :
    ((IconsCache.from_icons ic).pre_populate_cache).agrees ic := by
  obtain ⟨hnd, hwf⟩ := hw
  refine ⟨?_, ?_, ?_⟩
  · show ((IconsCache.from_icons ic).icons.find_all_icons.foldl
        IconsCache.insertTriple (IconsCache.from_icons ic)).icons = ic
    rw [foldl_insertTriple_icons]
    rfl
  · intro k
    show (lookupA ((IconsCache.from_icons ic).icons.find_all_icons.foldl
        IconsCache.insertTriple (IconsCache.from_icons ic)).themes k).map
        ThemeCache.theme = lookupA ic.themes k
    cases ho : lookupA ic.themes k with
    | none =>
      have h1 : lookupA (IconsCache.from_icons ic).themes k = none := by
        rw [from_icons_lookup, ho]
        rfl
      rw [foldl_insertTriple_lookup_none _ _ _ h1]
      rfl
    | some t =>
      have h1 : lookupA (IconsCache.from_icons ic).themes k
          = some (ThemeCache.from_theme t) := by
        rw [from_icons_lookup, ho]
        rfl
      rcases foldl_insertTriple_lookup (IconsCache.from_icons ic).icons.find_all_icons
          (IconsCache.from_icons ic) k _ h1 with ⟨tc1, hl, hth, _⟩
      rw [hl]
      show some tc1.theme = some t
      rw [hth]
      rfl
  · intro k tc1 hl1
    replace hl1 : lookupA ((IconsCache.from_icons ic).icons.find_all_icons.foldl
        IconsCache.insertTriple (IconsCache.from_icons ic)).themes k = some tc1 := hl1
    cases ho : lookupA ic.themes k with
    | none =>
      have h1 : lookupA (IconsCache.from_icons ic).themes k = none := by
        rw [from_icons_lookup, ho]
        rfl
      rw [foldl_insertTriple_lookup_none _ _ _ h1] at hl1
      cases hl1
    | some t =>
      have h1 : lookupA (IconsCache.from_icons ic).themes k
          = some (ThemeCache.from_theme t) := by
        rw [from_icons_lookup, ho]
        rfl
      rcases foldl_insertTriple_lookup (IconsCache.from_icons ic).icons.find_all_icons
          (IconsCache.from_icons ic) k _ h1 with ⟨tc2, hl2, hth2, hc2⟩
      rw [hl2] at hl1
      injection hl1 with he
      subst he
      intro n fs hfs
      have hcn := hc2 n
      rw [hfs] at hcn
      have hgr : trPairs (IconsCache.from_icons ic).icons.find_all_icons k
          (ThemeCache.from_theme t).theme.directories.length n = t.find_icon_files n :=
        trPairs_find_all ic hnd hwf k t ho n
      rw [hgr] at hcn
      have hemp : lookupA (ThemeCache.from_theme t).cache n = none := rfl
      rw [hemp] at hcn
      show fs = tc2.theme.find_icon_files n
      rw [hth2]
      show fs = t.find_icon_files n
      cases hfi : t.find_icon_files n with
      | nil =>
        rw [hfi] at hcn
        cases hcn
      | cons q qs =>
        rw [hfi] at hcn
        exact Option.some.inj hcn

/-! ### Key-set and bounds invariants over operation sequences -/

theorem from_icons_mapfst (ic : Icons) :
    (IconsCache.from_icons ic).themes.map Prod.fst = ic.themes.map Prod.fst := by
  show (ic.themes.map (fun kv => (kv.1, ThemeCache.from_theme kv.2))).map Prod.fst
      = ic.themes.map Prod.fst
  induction ic.themes with
  | nil => rfl
  | cons a t ih => simp [ih]

theorem find_icon_at_mapfst (c : IconsCache) (n : String) (s sc : Nat) (key : String) :
    ((c.find_icon_at n s sc key).2).themes.map Prod.fst = c.themes.map Prod.fst := by
  cases hk : lookupA c.themes key with
  | none =>
    unfold IconsCache.find_icon_at
    rw [hk]
  | some tc =>
    unfold IconsCache.find_icon_at
    simp only [hk]
    cases hfi : tc.find_icon n s sc with
    | mk r tc2 =>
      cases r with
      | some i => exact mapfst_updateA _ _ _
      | none => exact mapfst_updateA _ _ _

theorem find_icon_mapfst (c : IconsCache) (n : String) (s sc : Nat) (th : String) :
    ((c.find_icon n s sc th).2).themes.map Prod.fst = c.themes.map Prod.fst := by
  unfold IconsCache.find_icon
  by_cases hn : n = ""
  · rw [if_pos hn]
  · rw [if_neg hn]
    exact find_icon_at_mapfst _ _ _ _ _

theorem clear_theme_mapfst (c : IconsCache) (k : String) :
    ((c.clear_theme k).themes).map Prod.fst = c.themes.map Prod.fst := by
  unfold IconsCache.clear_theme
  cases hk : lookupA c.themes k with
  | none => rfl
  | some tc => exact mapfst_updateA _ _ _

theorem applyOp_mapfst (c : IconsCache) (op : COp) :
    (applyOp c op).themes.map Prod.fst = c.themes.map Prod.fst := by
  cases op with
  | find n s sc th => exact find_icon_mapfst _ _ _ _ _
  | prepop => exact foldl_insertTriple_mapfst _ _
  | clearTheme th => exact clear_theme_mapfst _ _

theorem applyOps_mapfst (ops : List COp) (c : IconsCache) :
    (applyOps c ops).themes.map Prod.fst = c.themes.map Prod.fst := by
  induction ops generalizing c with
  | nil => rfl
  | cons op ops2 ih =>
    show (applyOps (applyOp c op) ops2).themes.map Prod.fst = _
    rw [ih, applyOp_mapfst]

/-- Every directory reference stored in the memo table is a valid index into
the owning theme's directory list. -/
def ThemeCache.entriesInBounds (tc : ThemeCache) : Prop :=
  ∀ e ∈ tc.cache, ∀ q ∈ e.2, q.1 < tc.theme.directories.length

instance (tc : ThemeCache) : Decidable tc.entriesInBounds := by
  unfold ThemeCache.entriesInBounds; infer_instance

/-- A theme cache is in a safe state: its enumeration is in bounds and so is
every memoised candidate. -/
def ThemeCache.ok (tc : ThemeCache) : Prop :=
  tc.theme.wfFiles ∧ tc.entriesInBounds

instance (tc : ThemeCache) : Decidable tc.ok := by
  unfold ThemeCache.ok; infer_instance

/-- All theme caches of an `IconsCache` are in a safe state. -/
def IconsCache.ok (c : IconsCache) : Prop :=
  ∀ kt ∈ c.themes, kt.2.ok

instance (c : IconsCache) : Decidable c.ok := by
  unfold IconsCache.ok; infer_instance

theorem fih_ok (tc : ThemeCache) (h : tc.ok) (n : String) (s sc : Nat) :
    ((tc.find_icon_here n s sc).2).ok := by
  rcases h with ⟨hw, he⟩
  rw [fih_snd]
  cases hl : lookupA tc.cache n with
  | some fs => exact ⟨hw, he⟩
  | none =>
    refine ⟨hw, fun e hme q hq => ?_⟩
    rcases List.mem_append.mp hme with h1 | h1
    · exact he e h1 q hq
    · simp only [List.mem_singleton] at h1
      subst h1
      simp only [] at hq
      have : q ∈ tc.theme.files := List.mem_of_mem_filter hq
      exact hw q this

theorem find_ok (tc : ThemeCache) (h : tc.ok) (n : String) (s sc : Nat) :
    ((tc.find_icon n s sc).2).ok := by
  rw [find_snd_eq_fih_snd]
  exact fih_ok tc h n s sc

theorem clear_ok (tc : ThemeCache) (h : tc.ok) : (tc.clear_cache).ok := by
  exact ⟨h.1, fun e hme => by cases hme⟩

theorem insertTriple_ok (c : IconsCache) (h : c.ok)
    (tr : String × DirectoryRef × IconFile) : (c.insertTriple tr).ok := by
  unfold IconsCache.insertTriple
  cases h0 : lookupA c.themes tr.1 with
  | none => exact h
  | some tc0 =>
    dsimp only
    by_cases hd : tr.2.1 < tc0.theme.directories.length
    · rw [if_pos hd]
      intro kt hkt
      rcases mem_updateA _ _ _ _ hkt with h1 | h1
      · exact h kt h1
      · subst h1
        have htc0 : tc0.ok := h _ (lookupA_mem _ _ _ h0)
        refine ⟨htc0.1, fun e hme q hq => ?_⟩
        rcases mem_upsertA _ _ _ _ hme with h2 | h2
        · exact htc0.2 e h2 q hq
        · subst h2
          simp only [] at hq
          rcases List.mem_append.mp hq with h3 | h3
          · cases hgd : lookupA tc0.cache tr.2.2.iconName with
            | none =>
              rw [hgd] at h3
              cases h3
            | some l =>
              rw [hgd] at h3
              exact htc0.2 _ (lookupA_mem _ _ _ hgd) q h3
          · simp only [List.mem_singleton] at h3
            subst h3
            exact hd
    · rw [if_neg hd]
      exact h

theorem prepop_ok (c : IconsCache) (h : c.ok) : (c.pre_populate_cache).ok := by
  show ((c.icons.find_all_icons).foldl IconsCache.insertTriple c).ok
  generalize c.icons.find_all_icons = ts
  induction ts generalizing c with
  | nil => exact h
  | cons tr ts2 ih => exact ih (c.insertTriple tr) (insertTriple_ok c h tr)

theorem find_icon_at_ok (c : IconsCache) (h : c.ok) (n : String) (s sc : Nat)
    (key : String) : ((c.find_icon_at n s sc key).2).ok := by
  cases hk : lookupA c.themes key with
  | none =>
    unfold IconsCache.find_icon_at
    rw [hk]
    exact h
  | some tc =>
    unfold IconsCache.find_icon_at
    simp only [hk]
    have htc : tc.ok := h _ (lookupA_mem _ _ _ hk)
    cases hfi : tc.find_icon n s sc with
    | mk r tc2 =>
      have htc2 : tc2.ok := by
        have := find_ok tc htc n s sc
        rw [hfi] at this
        exact this
      cases r with
      | some i =>
        intro kt hkt
        rcases mem_updateA _ _ _ _ hkt with h1 | h1
        · exact h kt h1
        · subst h1
          exact htc2
      | none =>
        intro kt hkt
        rcases mem_updateA _ _ _ _ hkt with h1 | h1
        · exact h kt h1
        · subst h1
          exact htc2

theorem find_icon_ok (c : IconsCache) (h : c.ok) (n : String) (s sc : Nat)
    (th : String) : ((c.find_icon n s sc th).2).ok := by
  unfold IconsCache.find_icon
  by_cases hn : n = ""
  · rw [if_pos hn]
    exact h
  · rw [if_neg hn]
    exact find_icon_at_ok c h n s sc _

theorem clear_theme_ok (c : IconsCache) (h : c.ok) (k : String) :
    (c.clear_theme k).ok := by
  unfold IconsCache.clear_theme
  cases hk : lookupA c.themes k with
  | none => exact h
  | some tc =>
    intro kt hkt
    rcases mem_updateA _ _ _ _ hkt with h1 | h1
    · exact h kt h1
    · subst h1
      exact clear_ok tc (h _ (lookupA_mem _ _ _ hk))

theorem applyOp_ok (c : IconsCache) (h : c.ok) (op : COp) : (applyOp c op).ok := by
  cases op with
  | find n s sc th => exact find_icon_ok c h n s sc th
  | prepop => exact prepop_ok c h
  | clearTheme th => exact clear_theme_ok c h th

theorem applyOps_ok (ops : List COp) (c : IconsCache) (h : c.ok) :
    (applyOps c ops).ok := by
  induction ops generalizing c with
  | nil => exact h
  | cons op ops2 ih => exact ih (applyOp c op) (applyOp_ok c h op)

theorem from_icons_ok (ic : Icons) (hw : ic.wf) : (IconsCache.from_icons ic).ok := by
  intro kt hkt
  rcases List.mem_map.mp hkt with ⟨kv, hkv, heq⟩
  subst heq
  exact ⟨hw.2 kv hkv, fun e hme => by cases hme⟩

/-! ### Agreement is preserved by lookups -/

theorem find_icon_at_snd (c : IconsCache) (n : String) (s sc : Nat) (key : String) :
    (c.find_icon_at n s sc key).2 =
      match lookupA c.themes key with
      | none => c
      | some tc => { c with themes := updateA c.themes key (tc.find_icon n s sc).2 } := by
  cases hk : lookupA c.themes key with
  | none =>
    unfold IconsCache.find_icon_at
    rw [hk]
  | some tc =>
    unfold IconsCache.find_icon_at
    simp only [hk]
    cases hfi : tc.find_icon n s sc with
    | mk r tc2 =>
      cases r <;> rfl

theorem coherent_find_snd (tc : ThemeCache) (hc : tc.coherent) (n : String) (s sc : Nat) :
    ((tc.find_icon n s sc).2).coherent := by
  rw [find_snd_eq_fih_snd]
  exact coherent_fih_snd tc hc n s sc

theorem find_icon_agrees (c : IconsCache) (ic : Icons) (h : c.agrees ic) (n : String)
    (s sc : Nat) (th : String) : ((c.find_icon n s sc th).2).agrees ic := by
  rcases h with ⟨hic, hmap, hcoh⟩
  unfold IconsCache.find_icon
  by_cases hn : n = ""
  · rw [if_pos hn]
    exact ⟨hic, hmap, hcoh⟩
  · rw [if_neg hn]
    rw [find_icon_at_snd]
    set key := if (lookupA c.themes th).isSome = true then th else "hicolor" with hkey
    cases hk : lookupA c.themes key with
    | none => exact ⟨hic, hmap, hcoh⟩
    | some tc =>
      have htc : tc.coherent := hcoh key tc hk
      have htheme : ((tc.find_icon n s sc).2).theme = tc.theme := find_theme tc n s sc
      refine ⟨hic, ?_, ?_⟩
      · intro k
        by_cases hkk : k = key
        · subst hkk
          show (lookupA (updateA c.themes key (tc.find_icon n s sc).2) key).map
              ThemeCache.theme = lookupA ic.themes key
          rw [lookupA_updateA_self, hk, ← hmap key, hk]
          show some ((tc.find_icon n s sc).2).theme = some tc.theme
          rw [htheme]
        · show (lookupA (updateA c.themes key (tc.find_icon n s sc).2) k).map
              ThemeCache.theme = lookupA ic.themes k
          rw [lookupA_updateA_ne _ _ _ _ hkk]
          exact hmap k
      · intro k tck hlk
        by_cases hkk : k = key
        · subst hkk
          replace hlk : lookupA (updateA c.themes key (tc.find_icon n s sc).2) key
              = some tck := hlk
          rw [lookupA_updateA_self, hk] at hlk
          injection hlk with he
          rw [← he]
          exact coherent_find_snd tc htc n s sc
        · replace hlk : lookupA (updateA c.themes key (tc.find_icon n s sc).2) k
              = some tck := hlk
          rw [lookupA_updateA_ne _ _ _ _ hkk] at hlk
          exact hcoh k tck hlk

/-- A stream of user queries (icon name, size, scale, theme), applied in order. -/
def runFinds (c : IconsCache) (qs : List (String × Nat × Nat × String)) : IconsCache :=
  qs.foldl (fun c2 q => (c2.find_icon q.1 q.2.1 q.2.2.1 q.2.2.2).2) c

theorem agrees_runFinds (c : IconsCache) (ic : Icons) (h : c.agrees ic)
    (qs : List (String × Nat × Nat × String)) : (runFinds c qs).agrees ic := by
  induction qs generalizing c with
  | nil => exact h
  | cons q qs2 ih =>
    exact ih _ (find_icon_agrees c ic h q.1 q.2.1 q.2.2.1 q.2.2.2)

/-! ### Concrete fixtures for the witnesses -/

def dA : Directory :=
  ⟨fun s sc => s == 16 && sc == 1, fun s _ => if s ≥ 16 then s - 16 else 16 - s⟩

def dB : Directory :=
  ⟨fun s sc => s == 32 && sc == 1, fun s _ => if s ≥ 32 then s - 32 else 32 - s⟩

def fH1 : IconFile := ⟨"happy", "a/happy.png"⟩

def fH2 : IconFile := ⟨"happy", "b/happy.png"⟩

def fS : IconFile := ⟨"sad", "a/sad.png"⟩

def fP : IconFile := ⟨"ponly", "p/ponly.png"⟩

def tPar : Theme := .mk [dB] [(0, fH2), (0, fP)] []

def tMain : Theme := .mk [dA, dB] [(0, fH1), (1, fH2), (0, fS)] [tPar]

def icns : Icons :=
  ⟨[("TestTheme", tMain), ("hicolor", tPar)],
    fun n => if n == "lone" then some ⟨"lone", "lone.png"⟩ else none⟩

theorem find_fst_eq (tc : ThemeCache) (n : String) (s sc : Nat) :
    (tc.find_icon n s sc).1 =
      match (tc.find_icon_here n s sc).1 with
      | some i => some i
      | none =>
        tc.theme.inherits_from.findSome? (fun p => p.find_icon_here n s sc) := by
  unfold ThemeCache.find_icon
  have ht := fih_theme tc n s sc
  cases hr : tc.find_icon_here n s sc with
  | mk r tc1 =>
    rw [hr] at ht
    cases r with
    | some i => rfl
    | none =>
      show tc1.theme.inherits_from.findSome? _ = _
      rw [ht]

/-! ### The claims -/

/-- C1: for every icon name, size, scale and theme name, `IconsCache::find_icon`
on a freshly constructed cache returns the same icon file as the uncached
`Icons::find_icon` lookup on the index the cache was built from. -/
theorem C1_cache_transparency (ic : Icons) (n : String) (s sc : Nat) (th : String) :
    ((IconsCache.from_icons ic).find_icon n s sc th).1 = ic.find_icon n s sc th :=
  agrees_find_fst _ ic (agrees_from_icons ic) n s sc th

/-- C2: when the candidate list consulted by `find_icon_here` has an exact
(size, scale) match at position `i` and none before it, the returned icon file
is that candidate's — the first exact match in stored order wins regardless of
distances or later positions. -/
theorem C2_exact_match_first (tc : ThemeCache) (n : String) (s sc : Nat) (i : Nat)
    (hi : i < (tc.candidates n).length)
    (hp : (dirAt tc.theme.directories
        ((tc.candidates n).get ⟨i, hi⟩).1).matchesSize s sc = true)
    (hbefore : ∀ j (hj : j < i),
      (dirAt tc.theme.directories
        ((tc.candidates n).get ⟨j, hj.trans hi⟩).1).matchesSize s sc = false) :
    (tc.find_icon_here n s sc).1 = some ((tc.candidates n).get ⟨i, hi⟩).2 := by
  rw [fih_fst,
      find?_first (fun p => (dirAt tc.theme.directories p.1).matchesSize s sc)
        (tc.candidates n) i hi hp hbefore]

/-- C3: when no exact match exists, an empty candidate list yields no match,
and otherwise the result is the icon file of the first candidate (in stored
order) attaining the minimum size/scale distance over the whole list. -/
theorem C3_closest_match (tc : ThemeCache) (n : String) (s sc : Nat)
    (hno : (tc.candidates n).find?
      (fun p => (dirAt tc.theme.directories p.1).matchesSize s sc) = none) :
    (tc.candidates n = [] → (tc.find_icon_here n s sc).1 = none) ∧
    (∀ i (hi : i < (tc.candidates n).length),
      (∀ j (hj : j < (tc.candidates n).length),
        (dirAt tc.theme.directories ((tc.candidates n).get ⟨i, hi⟩).1).sizeDistance s sc ≤
          (dirAt tc.theme.directories ((tc.candidates n).get ⟨j, hj⟩).1).sizeDistance s sc) →
      (∀ j (hj : j < i),
        (dirAt tc.theme.directories ((tc.candidates n).get ⟨i, hi⟩).1).sizeDistance s sc <
          (dirAt tc.theme.directories
            ((tc.candidates n).get ⟨j, hj.trans hi⟩).1).sizeDistance s sc) →
      (tc.find_icon_here n s sc).1 = some ((tc.candidates n).get ⟨i, hi⟩).2) := by
  constructor
  · intro hemp
    rw [fih_fst, hno, hemp]
    rfl
  · intro i hi hmin hfirst
    rw [fih_fst, hno,
        minByKey_first_min (fun p => (dirAt tc.theme.directories p.1).sizeDistance s sc)
          (tc.candidates n) i hi hmin hfirst]
    rfl

/-- C4: `ThemeCache::find_icon` returns its own local match when there is one;
on a local miss it equals the scan of the parents' uncached local matches in
inheritance order (first non-empty wins, no match when all miss), and in
particular it never consults the standalone lookup. -/
theorem C4_inheritance_order (tc : ThemeCache) (n : String) (s sc : Nat) :
    (∀ i, (tc.find_icon_here n s sc).1 = some i → (tc.find_icon n s sc).1 = some i) ∧
    ((tc.find_icon_here n s sc).1 = none →
      (tc.find_icon n s sc).1
        = tc.theme.inherits_from.findSome? (fun p => p.find_icon_here n s sc)) ∧
    (∀ v (i : Nat) (hi : i < tc.theme.inherits_from.length),
      (tc.find_icon_here n s sc).1 = none →
      (tc.theme.inherits_from.get ⟨i, hi⟩).find_icon_here n s sc = some v →
      (∀ j (hj : j < i),
        (tc.theme.inherits_from.get ⟨j, hj.trans hi⟩).find_icon_here n s sc = none) →
      (tc.find_icon n s sc).1 = some v) ∧
    ((tc.find_icon_here n s sc).1 = none →
      (∀ p ∈ tc.theme.inherits_from, p.find_icon_here n s sc = none) →
      (tc.find_icon n s sc).1 = none) := by
  refine ⟨?_, ?_, ?_, ?_⟩
  · intro i h
    rw [find_fst_eq, h]
  · intro h
    rw [find_fst_eq, h]
  · intro v i hi h hv hbef
    rw [find_fst_eq, h]
    exact findSome?_first _ _ i hi v hv hbef
  · intro h hall
    rw [find_fst_eq, h]
    exact findSome?_none _ _ hall

/-- C5: the first `find_icon_here` call for a name leaves the name present in
the memo table (even with an empty candidate list), and a second call with
identical arguments returns the identical result and leaves the cache state —
hence memo occupancy — completely unchanged, performing no new enumeration. -/
theorem C5_memoised_once (tc : ThemeCache) (n : String) (s sc : Nat) :
    (lookupA ((tc.find_icon_here n s sc).2).cache n).isSome = true ∧
    ((tc.find_icon_here n s sc).2).find_icon_here n s sc = tc.find_icon_here n s sc := by
  constructor
  · rw [fih_lookup_self]
    rfl
  · exact fih_idem tc n s sc

/-- C6: `IconsCache::find_icon` returns no match immediately on an empty icon
name; an unknown theme name resolves to `"hicolor"` instead; and when
`"hicolor"` is unknown too the result is no match, never a hard failure. -/
theorem C6_theme_fallback (c : IconsCache) (s sc : Nat) (th : String) :
    (c.find_icon "" s sc th = (none, c)) ∧
    (∀ n, n ≠ "" → lookupA c.themes th = none →
      c.find_icon n s sc th = c.find_icon n s sc "hicolor") ∧
    (∀ n, lookupA c.themes th = none → lookupA c.themes "hicolor" = none →
      c.find_icon n s sc th = (none, c)) := by
  refine ⟨?_, ?_, ?_⟩
  · unfold IconsCache.find_icon
    rw [if_pos rfl]
  · intro n hn hth
    unfold IconsCache.find_icon
    rw [if_neg hn, if_neg hn,
        show (if (lookupA c.themes th).isSome = true then th else "hicolor") = "hicolor"
          from if_neg (by rw [hth]; decide),
        ite_self]
  · intro n hth hhc
    unfold IconsCache.find_icon
    by_cases hn : n = ""
    · rw [if_pos hn]
    · rw [if_neg hn,
          show (if (lookupA c.themes th).isSome = true then th else "hicolor") = "hicolor"
            from if_neg (by rw [hth]; decide)]
      exact find_icon_at_none c "hicolor" hhc n s sc

/-- C7: the theme-name key list of an `IconsCache` equals that of its source
index right after construction and after any sequence of lookups,
pre-populations and clears: no operation adds, removes or renames a theme. -/
theorem C7_theme_key_invariant (ic : Icons) (ops : List COp) :
    ((applyOps (IconsCache.from_icons ic) ops).themes).map Prod.fst
      = ic.themes.map Prod.fst := by
  rw [applyOps_mapfst, from_icons_mapfst]

/-- C8: after `pre_populate_cache` on a freshly constructed cache, every
subsequent `find_icon` call (after any stream of earlier lookups) returns the
same result as the same call on the lazily-populated cache that served the
same stream; directory references are resolved positionally during
pre-population. -/
theorem C8_prepopulation_equivalence (ic : Icons) (hw : ic.wf)
    (qs : List (String × Nat × Nat × String)) (n : String) (s sc : Nat) (th : String) :
    ((runFinds ((IconsCache.from_icons ic).pre_populate_cache) qs).find_icon n s sc th).1
      = ((runFinds (IconsCache.from_icons ic) qs).find_icon n s sc th).1 := by
  rw [agrees_find_fst _ ic (agrees_runFinds _ ic (prepop_agrees ic hw) qs) n s sc th,
      agrees_find_fst _ ic (agrees_runFinds _ ic (agrees_from_icons ic) qs) n s sc th]

/-- C9: starting from a well-formed index, after any sequence of operations
every directory reference stored in any memo table indexes within bounds of
the owning theme's directory list, so dereferencing in `find_icon_here` never
panics; sizes and scales are unconstrained throughout (they only feed the
total distance function). -/
theorem C9_no_panic_bounds (ic : Icons) (hw : ic.wf) (ops : List COp) :
    (applyOps (IconsCache.from_icons ic) ops).ok :=
  applyOps_ok ops _ (from_icons_ok ic hw)

/-- C10: `find_icon_here` mutates at most the memo entry of the queried name —
every other name's entry (present or absent) is untouched — and no
`ThemeCache` operation ever modifies the shared theme graph node. -/
theorem C10_frame (tc : ThemeCache) (n : String) (s sc : Nat) (m : String)
    (hm : m ≠ n) :
    lookupA ((tc.find_icon_here n s sc).2).cache m = lookupA tc.cache m ∧
    ((tc.find_icon_here n s sc).2).theme = tc.theme ∧
    ((tc.find_icon n s sc).2).theme = tc.theme ∧
    (tc.clear_cache).theme = tc.theme :=
  ⟨fih_lookup_frame tc n s sc m hm, fih_theme tc n s sc, find_theme tc n s sc, rfl⟩

/-! ### Witnesses -/

theorem C2_witness :
    ((ThemeCache.from_theme tMain).find_icon_here "happy" 16 1).1 = some fH1 := by
  have h := C2_exact_match_first (ThemeCache.from_theme tMain) "happy" 16 1 0 (by decide)
    (by decide) (fun j hj => absurd hj (Nat.not_lt_zero j))
  exact h.trans (by decide)

theorem C3_witness :
    ((ThemeCache.from_theme tMain).find_icon_here "happy" 40 1).1 = some fH2 := by
  have h := (C3_closest_match (ThemeCache.from_theme tMain) "happy" 40 1 (by decide)).2
    1 (by decide) (by decide) (by decide)
  exact h.trans (by decide)

theorem C4_witness :
    ((ThemeCache.from_theme tMain).find_icon "ponly" 32 1).1 = some fP := by
  have h := (C4_inheritance_order (ThemeCache.from_theme tMain) "ponly" 32 1).2.2.1
    fP 0 (by decide) (by decide) (by decide) (fun j hj => absurd hj (Nat.not_lt_zero j))
  exact h

theorem C6_witness :
    (IconsCache.from_icons icns).find_icon "happy" 16 1 "NoSuchTheme"
      = (IconsCache.from_icons icns).find_icon "happy" 16 1 "hicolor" :=
  (C6_theme_fallback (IconsCache.from_icons icns) 16 1 "NoSuchTheme").2.1 "happy"
    (by decide) rfl

theorem C8_witness :
    icns.wf ∧
    ((runFinds ((IconsCache.from_icons icns).pre_populate_cache)
        [("sad", 16, 1, "TestTheme")]).find_icon "happy" 40 1 "TestTheme").1
      = ((runFinds (IconsCache.from_icons icns)
        [("sad", 16, 1, "TestTheme")]).find_icon "happy" 40 1 "TestTheme").1 :=
  ⟨by decide,
    C8_prepopulation_equivalence icns (by decide) [("sad", 16, 1, "TestTheme")]
      "happy" 40 1 "TestTheme"⟩

theorem C9_witness :
    icns.wf ∧
    (applyOps (IconsCache.from_icons icns)
      [COp.find "happy" 16 1 "TestTheme", COp.prepop, COp.clearTheme "TestTheme",
       COp.find "sad" 40 2 "NoSuchTheme"]).ok :=
  ⟨by decide,
    C9_no_panic_bounds icns (by decide)
      [COp.find "happy" 16 1 "TestTheme", COp.prepop, COp.clearTheme "TestTheme",
       COp.find "sad" 40 2 "NoSuchTheme"]⟩

theorem C10_witness :
    lookupA (((ThemeCache.from_theme tMain).find_icon_here "happy" 16 1).2).cache "sad"
      = lookupA (ThemeCache.from_theme tMain).cache "sad" ∧
    (((ThemeCache.from_theme tMain).find_icon_here "happy" 16 1).2).theme
      = (ThemeCache.from_theme tMain).theme ∧
    (((ThemeCache.from_theme tMain).find_icon "happy" 16 1).2).theme
      = (ThemeCache.from_theme tMain).theme ∧
    ((ThemeCache.from_theme tMain).clear_cache).theme
      = (ThemeCache.from_theme tMain).theme :=
  C10_frame (ThemeCache.from_theme tMain) "happy" 16 1 "sad" (by decide)

end LinuxIcons
